import Mathlib

/-!
Verification development for the pure-fluid phase state resolver declared in
`src/cantera/include/cantera/thermo/PureFluidPhase.h`.  The repository ships
only the interface declarations; the resolver, saturation navigator and
state-cache implementations are modelled here from the design specification,
over exact rational arithmetic.  The one inline body present in the header
(`getChemPotentials`) is embedded directly from the source.
-/

namespace PureFluid

/-- Error kinds of the state resolver: `DomainError` for targets or iterates
outside the substance's valid range, `ConvergenceError` for an exhausted
iteration budget, `AmbiguousRootError` for unresolvable root ambiguity. -/
inductive Err : Type
  | DomainError : Err
  | ConvergenceError : Err
  | AmbiguousRootError : Err
deriving DecidableEq, Repr

/-- Single-phase thermodynamic state: temperature and density. -/
structure ThermodynamicState : Type where
  T : ℚ
  rho : ℚ
deriving DecidableEq, Repr

/-- Two-phase state: temperature, the two saturation densities at that
temperature, and the overall density of the mixture. -/
structure TwoPhaseState : Type where
  T : ℚ
  rhoLiquid : ℚ
  rhoVapor : ℚ
  rho : ℚ
deriving DecidableEq, Repr

/-- A resolved state is either single-phase or two-phase. -/
inductive PhaseState : Type
  | single : ThermodynamicState → PhaseState
  | twoPhase : TwoPhaseState → PhaseState
deriving DecidableEq, Repr

/-- Modelled from the spec: the external EOS Oracle interface (section 6).
The oracle's property-evaluation routines for concrete substances are not
part of the repository excerpt, so the oracle is an abstract collaborator:
pressure, energy, entropy, enthalpy and Gibbs energy as functions of
temperature and density; the saturation relation and coexisting densities as
functions of temperature; the critical point and valid-range data; and the
two-phase region test. -/
structure EOSOracle : Type where
  pressure : ℚ → ℚ → ℚ
  energy : ℚ → ℚ → ℚ
  entropy : ℚ → ℚ → ℚ
  enthalpy : ℚ → ℚ → ℚ
  gibbs : ℚ → ℚ → ℚ
  satP : ℚ → ℚ
  rhoLiq : ℚ → ℚ
  rhoVap : ℚ → ℚ
  Tcrit : ℚ
  Pcrit : ℚ
  rhoCrit : ℚ
  Ttriple : ℚ
  Tmin : ℚ
  Tmax : ℚ
  rhoMin : ℚ
  rhoMax : ℚ
  isTwoPhase : ℚ → ℚ → Bool

/-- The phase object: the substance oracle binding, the molar mass, and the
cached most recently resolved state. -/
structure Phase : Type where
  sub : EOSOracle
  mw : ℚ
  state : PhaseState

/-- Modelled from the spec: quality (vapor fraction) of a two-phase state via
the density-interpolation formula of section 4.1(4),
`x = (1/rho - 1/rho_liquid) / (1/rho_vapor - 1/rho_liquid)`.  The
implementation `PureFluidPhase::vaporFraction` is absent from the excerpt. -/
def vaporFraction (st : TwoPhaseState) : ℚ :=
  (1 / st.rho - 1 / st.rhoLiquid) / (1 / st.rhoVapor - 1 / st.rhoLiquid)

/-- Modelled from the spec: two-phase mixture rule of section 4.1(4): any
extensive property value is quality times the vapor-phase value plus
(1 - quality) times the liquid-phase value. -/
def mixtureProperty (st : TwoPhaseState) (liqVal vapVal : ℚ) : ℚ :=
  vaporFraction st * vapVal + (1 - vaporFraction st) * liqVal

/-- Modelled from the spec: a derived property read of the cached state
(section 4.3): single-phase states evaluate the oracle property at (T, rho);
two-phase states use the mixture rule over the two saturation densities. -/
def phaseProperty (f : ℚ → ℚ → ℚ) : PhaseState → ℚ
  | PhaseState.single st => f st.T st.rho
  | PhaseState.twoPhase st => mixtureProperty st (f st.T st.rhoLiquid) (f st.T st.rhoVapor)

/-- Molar Gibbs free energy of the cached state, read through the derived
property layer. -/
def gibbs_mole (ph : Phase) : ℚ :=
  phaseProperty ph.sub.gibbs ph.state

/-- Embedded from the source header (lines 68-70): `mu[0] = gibbs_mole();`.
The output array is modelled as a function from slot index to value, updated
at slot 0. -/
def getChemPotentials (ph : Phase) (mu : ℕ → ℚ) : ℕ → ℚ :=
  Function.update mu 0 (gibbs_mole ph)

/-- Modelled from the spec: `PureFluidPhase::getActivities` (declared at
header line 81, body absent from the excerpt).  Per the header's own
standard-state documentation (lines 90-97), the activity of the single
component is always one. -/
def getActivities (_ph : Phase) (a : ℕ → ℚ) : ℕ → ℚ :=
  Function.update a 0 1

/-- One bisection pass: halve the bracket `n` times, stepping toward the
root of `f` (oriented for `f` increasing: keep the upper half when the
midpoint value is negative). -/
def bisect (f : ℚ → ℚ) : ℕ → ℚ → ℚ → ℚ × ℚ
  | 0, lo, hi => (lo, hi)
  | n + 1, lo, hi =>
      let m := (lo + hi) / 2
      if f m < 0 then bisect f n m hi else bisect f n lo m

/-- Midpoint of the bracket left after `n` bisection steps. -/
def bisectMid (f : ℚ → ℚ) (n : ℕ) (lo hi : ℚ) : ℚ :=
  ((bisect f n lo hi).1 + (bisect f n lo hi).2) / 2

/-- Modelled from the spec: the bracketed one-variable root search of
section 4.1(2) with the edge-case policy of section 4.1: if the initial
bracket shows no sign change the search fails with `DomainError` rather than
extrapolating; otherwise it bisects in the orientation established by the
endpoint signs.  The concrete search routine is absent from the excerpt. -/
def solve1D (f : ℚ → ℚ) (lo hi : ℚ) (n : ℕ) : Except Err ℚ :=
  if f lo ≤ 0 ∧ 0 ≤ f hi then Except.ok (bisectMid f n lo hi)
  else if f hi ≤ 0 ∧ 0 ≤ f lo then Except.ok (bisectMid (fun x => -(f x)) n lo hi)
  else Except.error Err.DomainError

/-- Modelled from the spec: the inner density iteration of section 4.1(3):
at a trial temperature `T`, bisect over the density range for the density at
which property `f` meets `target`. -/
def innerRho (sub : EOSOracle) (f : ℚ → ℚ → ℚ) (target : ℚ) (n : ℕ) (T : ℚ) : ℚ :=
  bisectMid (fun rho => f T rho - target) n sub.rhoMin sub.rhoMax

/-- Modelled from the spec: on convergence the resolver stores the state; per
section 4.1(4) it first tests whether the candidate (T, rho) falls inside the
two-phase dome and, if so, stores a two-phase state built from the saturation
densities at T. -/
def mkState (sub : EOSOracle) (T rho : ℚ) : PhaseState :=
  if sub.isTwoPhase T rho then
    PhaseState.twoPhase ⟨T, sub.rhoLiq T, sub.rhoVap T, rho⟩
  else PhaseState.single ⟨T, rho⟩

/-- Modelled from the spec: the two-variable nested search of section 4.1(3)
(the resolver implementation is absent from the excerpt): an outer bracketed
search over temperature on the primary target `yo` of property `fo`, with an
inner density iteration at each trial temperature satisfying the secondary
target `yi` of property `fi`; convergence is declared only when both targets
are matched within the relative tolerance, else `ConvergenceError`. -/
def twoVarSolve (sub : EOSOracle) (fo : ℚ → ℚ → ℚ) (yo : ℚ) (fi : ℚ → ℚ → ℚ)
    (yi : ℚ) (tol : ℚ) (n : ℕ) : Except Err PhaseState :=
  match solve1D (fun T => fo T (innerRho sub fi yi n T) - yo) sub.Tmin sub.Tmax n with
  | Except.error e => Except.error e
  | Except.ok T =>
      if |fo T (innerRho sub fi yi n T) - yo| ≤ tol * |yo| ∧
          |fi T (innerRho sub fi yi n T) - yi| ≤ tol * |yi| then
        Except.ok (mkState sub T (innerRho sub fi yi n T))
      else Except.error Err.ConvergenceError

/-- Modelled from the spec: the one-variable search of section 4.1(2) at a
given temperature: bracketed root search over density for the target value of
property `f`, with the final tolerance check. -/
def oneVarRho (sub : EOSOracle) (f : ℚ → ℚ → ℚ) (target T tol : ℚ) (n : ℕ) :
    Except Err PhaseState :=
  if T < sub.Tmin ∨ sub.Tmax < T then Except.error Err.DomainError
  else
    match solve1D (fun rho => f T rho - target) sub.rhoMin sub.rhoMax n with
    | Except.error e => Except.error e
    | Except.ok rho =>
        if |f T rho - target| ≤ tol * |target| then Except.ok (mkState sub T rho)
        else Except.error Err.ConvergenceError

/-- Modelled from the spec: the one-variable search at a given density
(pairs that fix the specific volume): bracketed root search over temperature
for the target value of property `f`, with the final tolerance check. -/
def oneVarT (sub : EOSOracle) (f : ℚ → ℚ → ℚ) (target rho tol : ℚ) (n : ℕ) :
    Except Err PhaseState :=
  if rho < sub.rhoMin ∨ sub.rhoMax < rho then Except.error Err.DomainError
  else
    match solve1D (fun T => f T rho - target) sub.Tmin sub.Tmax n with
    | Except.error e => Except.error e
    | Except.ok T =>
        if |f T rho - target| ≤ tol * |target| then Except.ok (mkState sub T rho)
        else Except.error Err.ConvergenceError

/-- Modelled from the spec: `setState_HP` (header line 125, body absent):
outer search on enthalpy, inner density iteration on pressure. -/
def setState_HP (sub : EOSOracle) (h p tol : ℚ) (n : ℕ) : Except Err PhaseState :=
  twoVarSolve sub sub.enthalpy h sub.pressure p tol n

/-- Modelled from the spec: `setState_UV` (header line 126, body absent):
the density is fixed by the specific volume; search temperature on energy. -/
def setState_UV (sub : EOSOracle) (u v tol : ℚ) (n : ℕ) : Except Err PhaseState :=
  if v ≤ 0 then Except.error Err.DomainError
  else oneVarT sub sub.energy u (1 / v) tol n

/-- Modelled from the spec: `setState_SV` (header line 127, body absent):
the density is fixed by the specific volume; search temperature on entropy. -/
def setState_SV (sub : EOSOracle) (s v tol : ℚ) (n : ℕ) : Except Err PhaseState :=
  if v ≤ 0 then Except.error Err.DomainError
  else oneVarT sub sub.entropy s (1 / v) tol n

/-- Modelled from the spec: `setState_SP` (header line 128, body absent):
outer search on entropy, inner density iteration on pressure. -/
def setState_SP (sub : EOSOracle) (s p tol : ℚ) (n : ℕ) : Except Err PhaseState :=
  twoVarSolve sub sub.entropy s sub.pressure p tol n

/-- Modelled from the spec: `setState_ST` (header line 129, body absent):
one-variable density search on entropy at the given temperature. -/
def setState_ST (sub : EOSOracle) (s t tol : ℚ) (n : ℕ) : Except Err PhaseState :=
  oneVarRho sub sub.entropy s t tol n

/-- Modelled from the spec: `setState_TV` (header line 130, body absent):
the direct pair of section 4.1(1): both temperature and density are known. -/
def setState_TV (sub : EOSOracle) (t v _tol : ℚ) (_n : ℕ) : Except Err PhaseState :=
  if v ≤ 0 ∨ t < sub.Tmin ∨ sub.Tmax < t then Except.error Err.DomainError
  else Except.ok (mkState sub t (1 / v))

/-- Modelled from the spec: `setState_PV` (header line 131, body absent):
the density is fixed by the specific volume; search temperature on pressure. -/
def setState_PV (sub : EOSOracle) (p v tol : ℚ) (n : ℕ) : Except Err PhaseState :=
  if v ≤ 0 then Except.error Err.DomainError
  else oneVarT sub sub.pressure p (1 / v) tol n

/-- Modelled from the spec: `setState_UP` (header line 132, body absent):
outer search on internal energy, inner density iteration on pressure. -/
def setState_UP (sub : EOSOracle) (u p tol : ℚ) (n : ℕ) : Except Err PhaseState :=
  twoVarSolve sub sub.energy u sub.pressure p tol n

/-- Modelled from the spec: `setState_VH` (header line 133, body absent):
the density is fixed by the specific volume; search temperature on enthalpy. -/
def setState_VH (sub : EOSOracle) (v h tol : ℚ) (n : ℕ) : Except Err PhaseState :=
  if v ≤ 0 then Except.error Err.DomainError
  else oneVarT sub sub.enthalpy h (1 / v) tol n

/-- Modelled from the spec: `setState_TH` (header line 134, body absent):
one-variable density search on enthalpy at the given temperature. -/
def setState_TH (sub : EOSOracle) (t h tol : ℚ) (n : ℕ) : Except Err PhaseState :=
  oneVarRho sub sub.enthalpy h t tol n

/-- Modelled from the spec: `setState_SH` (header line 135, body absent):
outer search on entropy, inner density iteration on enthalpy. -/
def setState_SH (sub : EOSOracle) (s h tol : ℚ) (n : ℕ) : Except Err PhaseState :=
  twoVarSolve sub sub.entropy s sub.enthalpy h tol n

/-- Modelled from the spec: `satPressure` (header line 151, body absent):
the oracle returns the saturation pressure directly given T (section 2); the
navigator validates that T lies in [triple point, critical temperature] and
fails with `DomainError` otherwise (section 4.2). -/
def satPressure (sub : EOSOracle) (t : ℚ) : Except Err ℚ :=
  if t < sub.Ttriple ∨ sub.Tcrit < t then Except.error Err.DomainError
  else Except.ok (sub.satP t)

/-- Modelled from the spec: `satTemperature` (header line 150, body absent):
a monotone root search over the oracle's saturation relation, valid only for
pressures in [saturation pressure at the triple point, critical pressure];
outside that interval it fails with `DomainError`. -/
def satTemperature (sub : EOSOracle) (p : ℚ) (n : ℕ) : Except Err ℚ :=
  if p < sub.satP sub.Ttriple ∨ sub.Pcrit < p then Except.error Err.DomainError
  else Except.ok (bisectMid (fun t => sub.satP t - p) n sub.Ttriple sub.Tcrit)

/-- Modelled from the spec: `setState_Tsat` (header line 154, body absent),
the `setFromSaturation` operation of section 4.2: evaluate the saturation
densities at T, compute the overall density through the inverse of the
quality formula, and store the two-phase state; the temperature must lie in
the saturation range (below the critical temperature, where a two-phase
state is valid) and the quality in [0, 1], else `DomainError`. -/
def setState_Tsat (sub : EOSOracle) (t x : ℚ) : Except Err PhaseState :=
  if t < sub.Ttriple ∨ sub.Tcrit ≤ t then Except.error Err.DomainError
  else if x < 0 ∨ 1 < x then Except.error Err.DomainError
  else
    Except.ok (PhaseState.twoPhase
      ⟨t, sub.rhoLiq t, sub.rhoVap t, 1 / (x / sub.rhoVap t + (1 - x) / sub.rhoLiq t)⟩)

/-- Modelled from the spec: `setState_Psat` (header line 155, body absent):
resolve the saturation temperature from the pressure, then construct the
two-phase state as `setState_Tsat` does. -/
def setState_Psat (sub : EOSOracle) (p x : ℚ) (n : ℕ) : Except Err PhaseState :=
  match satTemperature sub p n with
  | Except.error e => Except.error e
  | Except.ok t => setState_Tsat sub t x

/-- The thirteen state-setting operations of the public surface: the eleven
property-pair setters (header lines 125-135) and the two saturation setters
(header lines 154-155), each carrying its numeric targets. -/
inductive SetStateOp : Type
  | HP (h p tol : ℚ)
  | UV (u v tol : ℚ)
  | SV (s v tol : ℚ)
  | SP (s p tol : ℚ)
  | ST (s t tol : ℚ)
  | TV (t v tol : ℚ)
  | PV (p v tol : ℚ)
  | UP (u p tol : ℚ)
  | VH (v h tol : ℚ)
  | TH (t h tol : ℚ)
  | SH (s h tol : ℚ)
  | Tsat (t x : ℚ)
  | Psat (p x : ℚ)

/-- Dispatch a state-setting operation to its resolver. -/
def runSetState (sub : EOSOracle) (op : SetStateOp) (n : ℕ) : Except Err PhaseState :=
  match op with
  | SetStateOp.HP h p tol => setState_HP sub h p tol n
  | SetStateOp.UV u v tol => setState_UV sub u v tol n
  | SetStateOp.SV s v tol => setState_SV sub s v tol n
  | SetStateOp.SP s p tol => setState_SP sub s p tol n
  | SetStateOp.ST s t tol => setState_ST sub s t tol n
  | SetStateOp.TV t v tol => setState_TV sub t v tol n
  | SetStateOp.PV p v tol => setState_PV sub p v tol n
  | SetStateOp.UP u p tol => setState_UP sub u p tol n
  | SetStateOp.VH v h tol => setState_VH sub v h tol n
  | SetStateOp.TH t h tol => setState_TH sub t h tol n
  | SetStateOp.SH s h tol => setState_SH sub s h tol n
  | SetStateOp.Tsat t x => setState_Tsat sub t x
  | SetStateOp.Psat p x => setState_Psat sub p x n

/-- Modelled from the spec: the lifecycle policy of section 3: a successful
set-state call replaces the cached state atomically; on failure the previous
state is preserved and the error is signaled to the caller. -/
def applySetState (ph : Phase) (op : SetStateOp) (n : ℕ) : Phase × Option Err :=
  match runSetState ph.sub op n with
  | Except.ok st => ({ ph with state := st }, none)
  | Except.error e => (ph, some e)

/-- The bracketed search each set-state operation performs: its residual
function together with the bracket endpoints handed to the root search.
The three searching shapes are the outer temperature search of the nested
two-variable pairs, the temperature search of the fixed-volume pairs, and
the density search of the fixed-temperature pairs.  The direct pair TV and
the two saturation setters perform no bracketed search (the
saturation-temperature query validates its pressure interval directly), so
they carry no residual. -/
def searchResidual (sub : EOSOracle) (op : SetStateOp) (n : ℕ) :
    Option ((ℚ → ℚ) × ℚ × ℚ) :=
  match op with
  | SetStateOp.HP h p _ =>
      some (fun T => sub.enthalpy T (innerRho sub sub.pressure p n T) - h,
        sub.Tmin, sub.Tmax)
  | SetStateOp.UV u v _ =>
      some (fun T => sub.energy T (1 / v) - u, sub.Tmin, sub.Tmax)
  | SetStateOp.SV s v _ =>
      some (fun T => sub.entropy T (1 / v) - s, sub.Tmin, sub.Tmax)
  | SetStateOp.SP s p _ =>
      some (fun T => sub.entropy T (innerRho sub sub.pressure p n T) - s,
        sub.Tmin, sub.Tmax)
  | SetStateOp.ST s t _ =>
      some (fun rho => sub.entropy t rho - s, sub.rhoMin, sub.rhoMax)
  | SetStateOp.TV _ _ _ => none
  | SetStateOp.PV p v _ =>
      some (fun T => sub.pressure T (1 / v) - p, sub.Tmin, sub.Tmax)
  | SetStateOp.UP u p _ =>
      some (fun T => sub.energy T (innerRho sub sub.pressure p n T) - u,
        sub.Tmin, sub.Tmax)
  | SetStateOp.VH v h _ =>
      some (fun T => sub.enthalpy T (1 / v) - h, sub.Tmin, sub.Tmax)
  | SetStateOp.TH t h _ =>
      some (fun rho => sub.enthalpy t rho - h, sub.rhoMin, sub.rhoMax)
  | SetStateOp.SH s h _ =>
      some (fun T => sub.entropy T (innerRho sub sub.enthalpy h n T) - s,
        sub.Tmin, sub.Tmax)
  | SetStateOp.Tsat _ _ => none
  | SetStateOp.Psat _ _ => none

theorem bisect_zero (f : ℚ → ℚ) (lo hi : ℚ) : bisect f 0 lo hi = (lo, hi) := rfl

theorem bisect_succ (f : ℚ → ℚ) (n : ℕ) (lo hi : ℚ) :
    bisect f (n + 1) lo hi =
      if f ((lo + hi) / 2) < 0 then bisect f n ((lo + hi) / 2) hi
      else bisect f n lo ((lo + hi) / 2) := rfl

theorem bisect_width (f : ℚ → ℚ) (n : ℕ) :
    ∀ lo hi : ℚ, (bisect f n lo hi).2 - (bisect f n lo hi).1 = (hi - lo) / 2 ^ n := by
  induction n with
  | zero => intro lo hi; simp [bisect_zero]
  | succ n ih =>
      intro lo hi
      rw [bisect_succ]
      have h2 : (2 : ℚ) ^ n ≠ 0 := by positivity
      by_cases h : f ((lo + hi) / 2) < 0
      · rw [if_pos h, ih]
        rw [pow_succ]
        field_simp
        ring
      · rw [if_neg h, ih]
        rw [pow_succ]
        field_simp
        ring

theorem bisect_bracket (f : ℚ → ℚ) (n : ℕ) :
    ∀ lo hi : ℚ, lo ≤ hi →
      lo ≤ (bisect f n lo hi).1 ∧ (bisect f n lo hi).1 ≤ (bisect f n lo hi).2 ∧
        (bisect f n lo hi).2 ≤ hi := by
  induction n with
  | zero => intro lo hi h; simpa [bisect_zero] using h
  | succ n ih =>
      intro lo hi h
      rw [bisect_succ]
      have h1 : lo ≤ (lo + hi) / 2 := by linarith
      have h2 : (lo + hi) / 2 ≤ hi := by linarith
      by_cases hm : f ((lo + hi) / 2) < 0
      · rw [if_pos hm]
        obtain ⟨a, b, c⟩ := ih ((lo + hi) / 2) hi h2
        exact ⟨le_trans h1 a, b, c⟩
      · rw [if_neg hm]
        obtain ⟨a, b, c⟩ := ih lo ((lo + hi) / 2) h1
        exact ⟨a, b, le_trans c h2⟩

theorem bisect_locate (f : ℚ → ℚ) (lo0 hi0 r d : ℚ)
    (Hlow : ∀ m, lo0 ≤ m → m ≤ hi0 → f m < 0 → m ≤ r + d)
    (Hhigh : ∀ m, lo0 ≤ m → m ≤ hi0 → 0 ≤ f m → r - d ≤ m) (n : ℕ) :
    ∀ lo hi : ℚ, lo0 ≤ lo → hi ≤ hi0 → lo ≤ hi → lo ≤ r + d → r - d ≤ hi →
      (bisect f n lo hi).1 ≤ r + d ∧ r - d ≤ (bisect f n lo hi).2 := by
  induction n with
  | zero => intro lo hi _ _ _ h4 h5; exact ⟨h4, h5⟩
  | succ n ih =>
      intro lo hi hl0 hh0 hlh h4 h5
      rw [bisect_succ]
      have hm1 : lo ≤ (lo + hi) / 2 := by linarith
      have hm2 : (lo + hi) / 2 ≤ hi := by linarith
      have hml : lo0 ≤ (lo + hi) / 2 := le_trans hl0 hm1
      have hmh : (lo + hi) / 2 ≤ hi0 := le_trans hm2 hh0
      by_cases hf : f ((lo + hi) / 2) < 0
      · rw [if_pos hf]
        exact ih ((lo + hi) / 2) hi hml hh0 hm2 (Hlow _ hml hmh hf) h5
      · rw [if_neg hf]
        exact ih lo ((lo + hi) / 2) hl0 hmh hm1 h4 (Hhigh _ hml hmh (le_of_not_lt hf))

theorem bisectMid_close (f : ℚ → ℚ) (lo hi r d : ℚ) (n : ℕ)
    (h1 : lo ≤ hi) (h2 : lo ≤ r + d) (h3 : r - d ≤ hi)
    (Hlow : ∀ m, lo ≤ m → m ≤ hi → f m < 0 → m ≤ r + d)
    (Hhigh : ∀ m, lo ≤ m → m ≤ hi → 0 ≤ f m → r - d ≤ m) :
    |bisectMid f n lo hi - r| ≤ d + (hi - lo) / 2 ^ n := by
  obtain ⟨ha, hb⟩ :=
    bisect_locate f lo hi r d Hlow Hhigh n lo hi (le_refl lo) (le_refl hi) h1 h2 h3
  have hw := bisect_width f n lo hi
  obtain ⟨hq, hr, hs⟩ := bisect_bracket f n lo hi h1
  have hwpos : 0 ≤ (hi - lo) / 2 ^ n := div_nonneg (by linarith) (by positivity)
  rw [bisectMid, abs_le]
  constructor
  · linarith
  · linarith

theorem tsat_state_props (t rl rv x : ℚ) (hv : 0 < rv) (hvl : rv < rl)
    (hx0 : 0 ≤ x) (hx1 : x ≤ 1) :
    vaporFraction ⟨t, rl, rv, 1 / (x / rv + (1 - x) / rl)⟩ = x ∧
      rv ≤ 1 / (x / rv + (1 - x) / rl) ∧ 1 / (x / rv + (1 - x) / rl) ≤ rl := by
  have hl : 0 < rl := lt_trans hv hvl
  have hb : 0 < 1 / rl := by positivity
  have hba : 1 / rl < 1 / rv := one_div_lt_one_div_of_lt hv hvl
  have hkey : x / rv + (1 - x) / rl - 1 / rl = x * (1 / rv - 1 / rl) := by ring
  have hkey2 : 1 / rv - (x / rv + (1 - x) / rl) = (1 - x) * (1 / rv - 1 / rl) := by ring
  have hs_lb : 1 / rl ≤ x / rv + (1 - x) / rl := by
    nlinarith [mul_nonneg hx0 (le_of_lt (sub_pos.mpr hba))]
  have hs_ub : x / rv + (1 - x) / rl ≤ 1 / rv := by
    nlinarith [mul_nonneg (by linarith : (0:ℚ) ≤ 1 - x) (le_of_lt (sub_pos.mpr hba))]
  have hs_pos : 0 < x / rv + (1 - x) / rl := lt_of_lt_of_le hb hs_lb
  refine ⟨?_, ?_, ?_⟩
  · show (1 / (1 / (x / rv + (1 - x) / rl)) - 1 / rl) / (1 / rv - 1 / rl) = x
    rw [one_div_one_div, hkey, mul_div_assoc,
      div_self (ne_of_gt (sub_pos.mpr hba)), mul_one]
  · calc rv = 1 / (1 / rv) := (one_div_one_div rv).symm
      _ ≤ 1 / (x / rv + (1 - x) / rl) := one_div_le_one_div_of_le hs_pos hs_ub
  · calc 1 / (x / rv + (1 - x) / rl) ≤ 1 / (1 / rl) :=
        one_div_le_one_div_of_le hb hs_lb
      _ = rl := one_div_one_div rl

theorem tsat_state_strict (rl rv x : ℚ) (hv : 0 < rv) (hvl : rv < rl)
    (hx0 : 0 < x) (hx1 : x < 1) :
    rv < 1 / (x / rv + (1 - x) / rl) ∧ 1 / (x / rv + (1 - x) / rl) < rl := by
  have hl : 0 < rl := lt_trans hv hvl
  have hb : 0 < 1 / rl := by positivity
  have hba : 1 / rl < 1 / rv := one_div_lt_one_div_of_lt hv hvl
  have hkey : x / rv + (1 - x) / rl - 1 / rl = x * (1 / rv - 1 / rl) := by ring
  have hkey2 : 1 / rv - (x / rv + (1 - x) / rl) = (1 - x) * (1 / rv - 1 / rl) := by ring
  have hs_lb : 1 / rl < x / rv + (1 - x) / rl := by
    linarith [mul_pos hx0 (sub_pos.mpr hba)]
  have hs_ub : x / rv + (1 - x) / rl < 1 / rv := by
    linarith [mul_pos (by linarith : (0:ℚ) < 1 - x) (sub_pos.mpr hba)]
  have hs_pos : 0 < x / rv + (1 - x) / rl := lt_trans hb hs_lb
  constructor
  · calc rv = 1 / (1 / rv) := (one_div_one_div rv).symm
      _ < 1 / (x / rv + (1 - x) / rl) := one_div_lt_one_div_of_lt hs_pos hs_ub
  · calc 1 / (x / rv + (1 - x) / rl) < 1 / (1 / rl) :=
        one_div_lt_one_div_of_lt hb hs_lb
      _ = rl := one_div_one_div rl

/-- A concrete substance oracle with simple linear property fields, used to
instantiate the theorems below on explicit inputs. -/
def testSub : EOSOracle where
  pressure := fun _ rho => rho
  energy := fun T _ => T
  entropy := fun T rho => T + rho
  enthalpy := fun T rho => T + rho
  gibbs := fun T rho => T - rho
  satP := fun t => t
  rhoLiq := fun _ => 3
  rhoVap := fun _ => 1
  Tcrit := 10
  Pcrit := 10
  rhoCrit := 2
  Ttriple := 1
  Tmin := 1
  Tmax := 3
  rhoMin := 1
  rhoMax := 3
  isTwoPhase := fun _ _ => false

/-- A concrete phase object over `testSub` holding a resolved state. -/
def testPhase : Phase :=
  ⟨testSub, 1, PhaseState.single ⟨2, 2⟩⟩

/-- C2: for every set-state operation (any of the eleven property-pair
setters and the two saturation setters) and every starting state, if the
call signals a failure then the phase object's cached state after the call
is exactly the state it held before the call: no field is mutated. -/
theorem set_state_atomic_on_failure (ph : Phase) (op : SetStateOp) (n : ℕ) (e : Err)
    (hfail : (applySetState ph op n).2 = some e) :
    (applySetState ph op n).1 = ph := by
  unfold applySetState at hfail ⊢
  cases h : runSetState ph.sub op n with
  | ok st => simp [h] at hfail
  | error e2 => simp [h]

/-- Witness for C2: a saturation setter called with quality 2 fails with a
domain error, and the cached state is untouched. -/
theorem set_state_atomic_on_failure_witness :
    (applySetState testPhase (SetStateOp.Tsat 2 2) 5).2 = some Err.DomainError ∧
      (applySetState testPhase (SetStateOp.Tsat 2 2) 5).1 = testPhase :=
  ⟨by decide, set_state_atomic_on_failure testPhase (SetStateOp.Tsat 2 2) 5
    Err.DomainError (by decide)⟩

/-- C3: for a cached two-phase state with overall density rho and saturation
densities rho_liquid and rho_vapor, `vaporFraction` returns exactly
`(1/rho - 1/rho_liquid) / (1/rho_vapor - 1/rho_liquid)`, every mixture
property read of that state is quality times the saturated-vapor value plus
(1 - quality) times the saturated-liquid value, and (provided the
saturation specific volumes differ) that quality is the one consistent with
the overall density under the mixture rule applied to specific volume. -/
theorem vapor_fraction_mixture_rule (st : TwoPhaseState)
    (hne : 1 / st.rhoVapor - 1 / st.rhoLiquid ≠ 0) :
    vaporFraction st =
        (1 / st.rho - 1 / st.rhoLiquid) / (1 / st.rhoVapor - 1 / st.rhoLiquid) ∧
      (∀ f : ℚ → ℚ → ℚ,
        phaseProperty f (PhaseState.twoPhase st) =
          vaporFraction st * f st.T st.rhoVapor +
            (1 - vaporFraction st) * f st.T st.rhoLiquid) ∧
      vaporFraction st * (1 / st.rhoVapor) +
          (1 - vaporFraction st) * (1 / st.rhoLiquid) = 1 / st.rho := by
  refine ⟨rfl, fun f => rfl, ?_⟩
  have h1 : vaporFraction st * (1 / st.rhoVapor - 1 / st.rhoLiquid) =
      1 / st.rho - 1 / st.rhoLiquid := div_mul_cancel₀ _ hne
  linarith [h1, mul_sub (vaporFraction st) (1 / st.rhoVapor) (1 / st.rhoLiquid)]

/-- Witness for C3 on an explicit two-phase state. -/
theorem vapor_fraction_mixture_rule_witness :
    (1 : ℚ) / 1 - 1 / 3 ≠ 0 ∧
      vaporFraction ⟨2, 3, 1, 3 / 2⟩ =
        (1 / (3 / 2 : ℚ) - 1 / 3) / (1 / 1 - 1 / 3) :=
  ⟨by norm_num, (vapor_fraction_mixture_rule ⟨2, 3, 1, 3 / 2⟩ (by norm_num)).1⟩

/-- C4: for a temperature in the saturation range and a quality strictly
between 0 and 1, the state built by `setState_Tsat` is two-phase, its
`vaporFraction` returns the requested quality exactly, and its overall
density lies strictly between the saturated-vapor and saturated-liquid
densities. -/
theorem tsat_quality_roundtrip (sub : EOSOracle) (t x : ℚ)
    (ht1 : sub.Ttriple ≤ t) (ht2 : t < sub.Tcrit)
    (hx0 : 0 < x) (hx1 : x < 1)
    (hv : 0 < sub.rhoVap t) (hvl : sub.rhoVap t < sub.rhoLiq t) :
    ∃ st : TwoPhaseState,
      setState_Tsat sub t x = Except.ok (PhaseState.twoPhase st) ∧
        vaporFraction st = x ∧
        sub.rhoVap t < st.rho ∧ st.rho < sub.rhoLiq t := by
  refine ⟨⟨t, sub.rhoLiq t, sub.rhoVap t,
    1 / (x / sub.rhoVap t + (1 - x) / sub.rhoLiq t)⟩, ?_, ?_, ?_, ?_⟩
  · unfold setState_Tsat
    rw [if_neg (by push_neg; exact ⟨ht1, ht2⟩),
      if_neg (by push_neg; exact ⟨le_of_lt hx0, le_of_lt hx1⟩)]
  · exact (tsat_state_props t (sub.rhoLiq t) (sub.rhoVap t) x hv hvl
      (le_of_lt hx0) (le_of_lt hx1)).1
  · exact (tsat_state_strict (sub.rhoLiq t) (sub.rhoVap t) x hv hvl hx0 hx1).1
  · exact (tsat_state_strict (sub.rhoLiq t) (sub.rhoVap t) x hv hvl hx0 hx1).2

/-- Witness for C4 at T = 2, x = 1/2 over the test substance. -/
theorem tsat_quality_roundtrip_witness :
    (0 : ℚ) < 1 / 2 ∧
      ∃ st : TwoPhaseState,
        setState_Tsat testSub 2 (1 / 2) = Except.ok (PhaseState.twoPhase st) ∧
          vaporFraction st = 1 / 2 ∧
          testSub.rhoVap 2 < st.rho ∧ st.rho < testSub.rhoLiq 2 :=
  ⟨by norm_num, tsat_quality_roundtrip testSub 2 (1 / 2) (by norm_num [testSub])
    (by norm_num [testSub]) (by norm_num) (by norm_num)
    (by norm_num [testSub]) (by norm_num [testSub])⟩

/-- C7: `satTemperature` succeeds exactly for pressures in the closed
interval from the saturation pressure at the triple point up to the
critical pressure, and `satPressure` succeeds exactly for temperatures in
the closed interval from the triple-point temperature up to the critical
temperature; outside, each fails with `DomainError`. -/
theorem sat_queries_domain (sub : EOSOracle) (p t : ℚ) (n : ℕ) :
    ((∃ T2, satTemperature sub p n = Except.ok T2) ↔
        sub.satP sub.Ttriple ≤ p ∧ p ≤ sub.Pcrit) ∧
      (¬ (sub.satP sub.Ttriple ≤ p ∧ p ≤ sub.Pcrit) →
        satTemperature sub p n = Except.error Err.DomainError) ∧
      ((∃ P2, satPressure sub t = Except.ok P2) ↔
        sub.Ttriple ≤ t ∧ t ≤ sub.Tcrit) ∧
      (¬ (sub.Ttriple ≤ t ∧ t ≤ sub.Tcrit) →
        satPressure sub t = Except.error Err.DomainError) := by
  have hT : (∃ T2, satTemperature sub p n = Except.ok T2) ↔
      sub.satP sub.Ttriple ≤ p ∧ p ≤ sub.Pcrit := by
    unfold satTemperature
    by_cases h : p < sub.satP sub.Ttriple ∨ sub.Pcrit < p
    · rw [if_pos h]
      constructor
      · rintro ⟨T2, hT2⟩
        exact Except.noConfusion hT2
      · intro hc
        rcases h with h | h
        · exact absurd hc.1 (not_le.mpr h)
        · exact absurd hc.2 (not_le.mpr h)
    · rw [if_neg h]
      push_neg at h
      exact ⟨fun _ => h, fun _ => ⟨_, rfl⟩⟩
  have hTerr : ¬ (sub.satP sub.Ttriple ≤ p ∧ p ≤ sub.Pcrit) →
      satTemperature sub p n = Except.error Err.DomainError := by
    intro hc
    unfold satTemperature
    by_cases h : p < sub.satP sub.Ttriple ∨ sub.Pcrit < p
    · rw [if_pos h]
    · push_neg at h
      exact absurd h hc
  have hP : (∃ P2, satPressure sub t = Except.ok P2) ↔
      sub.Ttriple ≤ t ∧ t ≤ sub.Tcrit := by
    unfold satPressure
    by_cases h : t < sub.Ttriple ∨ sub.Tcrit < t
    · rw [if_pos h]
      constructor
      · rintro ⟨P2, hP2⟩
        exact Except.noConfusion hP2
      · intro hc
        rcases h with h | h
        · exact absurd hc.1 (not_le.mpr h)
        · exact absurd hc.2 (not_le.mpr h)
    · rw [if_neg h]
      push_neg at h
      exact ⟨fun _ => h, fun _ => ⟨_, rfl⟩⟩
  have hPerr : ¬ (sub.Ttriple ≤ t ∧ t ≤ sub.Tcrit) →
      satPressure sub t = Except.error Err.DomainError := by
    intro hc
    unfold satPressure
    by_cases h : t < sub.Ttriple ∨ sub.Tcrit < t
    · rw [if_pos h]
    · push_neg at h
      exact absurd h hc
  exact ⟨hT, hTerr, hP, hPerr⟩

/-- Witness for C7: a pressure below the triple-point saturation pressure is
rejected with a domain error. -/
theorem sat_queries_domain_witness :
    ¬ ((1 : ℚ) ≤ 0 ∧ (0 : ℚ) ≤ 10) ∧
      satTemperature testSub 0 5 = Except.error Err.DomainError :=
  ⟨by norm_num, (sat_queries_domain testSub 0 2 5).2.1 (by norm_num [testSub])⟩

/-- C9: `getChemPotentials` writes into its single output slot exactly the
value returned by `gibbs_mole`, and leaves every other slot untouched:
embedded from the inline body `mu[0] = gibbs_mole();` of the header. -/
theorem chem_potential_is_gibbs (ph : Phase) (mu : ℕ → ℚ) :
    getChemPotentials ph mu 0 = gibbs_mole ph ∧
      ∀ k : ℕ, k ≠ 0 → getChemPotentials ph mu k = mu k := by
  refine ⟨?_, fun k hk => ?_⟩
  · simp [getChemPotentials]
  · simp [getChemPotentials, Function.update_noteq hk]

/-- Witness for C9 on the concrete test phase. -/
theorem chem_potential_is_gibbs_witness :
    getChemPotentials testPhase (fun _ => 0) 0 = gibbs_mole testPhase ∧
      getChemPotentials testPhase (fun _ => 0) 1 = 0 :=
  ⟨(chem_potential_is_gibbs testPhase (fun _ => 0)).1,
    (chem_potential_is_gibbs testPhase (fun _ => 0)).2 1 (by decide)⟩

/-- C10: `getActivities` writes 1 into the single species slot regardless of
the cached state, the standard state being the real fluid at its most stable
state at the current temperature and pressure. -/
theorem activity_is_one (ph : Phase) (a : ℕ → ℚ) :
    getActivities ph a 0 = 1 ∧ ∀ k : ℕ, k ≠ 0 → getActivities ph a k = a k := by
  refine ⟨?_, fun k hk => ?_⟩
  · simp [getActivities]
  · simp [getActivities, Function.update_noteq hk]

/-- Witness for C10 on the concrete test phase. -/
theorem activity_is_one_witness :
    getActivities testPhase (fun _ => 5) 0 = 1 ∧
      getActivities testPhase (fun _ => 5) 2 = 5 :=
  ⟨(activity_is_one testPhase (fun _ => 5)).1,
    (activity_is_one testPhase (fun _ => 5)).2 2 (by decide)⟩

/-- Modelled from the spec: the data-model invariant of a two-phase state
(section 3): the stored saturation densities are the oracle's saturation
densities at T, the quality lies in [0, 1], T is below the critical
temperature, the overall density lies between the saturated-vapor and the
saturated-liquid density, quality 0 denotes saturated liquid and quality 1
denotes saturated vapor. -/
def TwoPhaseInvariant (sub : EOSOracle) (st : TwoPhaseState) : Prop :=
  st.rhoLiquid = sub.rhoLiq st.T ∧ st.rhoVapor = sub.rhoVap st.T ∧
    0 ≤ vaporFraction st ∧ vaporFraction st ≤ 1 ∧ st.T < sub.Tcrit ∧
    st.rhoVapor ≤ st.rho ∧ st.rho ≤ st.rhoLiquid ∧
    (vaporFraction st = 0 → st.rho = st.rhoLiquid) ∧
    (vaporFraction st = 1 → st.rho = st.rhoVapor)

theorem invariant_of_bounds (sub : EOSOracle) (st : TwoPhaseState)
    (hL : st.rhoLiquid = sub.rhoLiq st.T) (hV : st.rhoVapor = sub.rhoVap st.T)
    (hTc : st.T < sub.Tcrit) (hvpos : 0 < st.rhoVapor)
    (hvl : st.rhoVapor < st.rhoLiquid)
    (h1 : st.rhoVapor ≤ st.rho) (h2 : st.rho ≤ st.rhoLiquid) :
    TwoPhaseInvariant sub st := by
  have hrpos : 0 < st.rho := lt_of_lt_of_le hvpos h1
  have hD : 0 < 1 / st.rhoVapor - 1 / st.rhoLiquid :=
    sub_pos.mpr (one_div_lt_one_div_of_lt hvpos hvl)
  have hNlow : 1 / st.rhoLiquid ≤ 1 / st.rho := one_div_le_one_div_of_le hrpos h2
  have hNhigh : 1 / st.rho ≤ 1 / st.rhoVapor := one_div_le_one_div_of_le hvpos h1
  have hx0 : 0 ≤ vaporFraction st := div_nonneg (by linarith) (le_of_lt hD)
  have hx1 : vaporFraction st ≤ 1 := by
    unfold vaporFraction
    rw [div_le_one hD]
    linarith
  refine ⟨hL, hV, hx0, hx1, hTc, h1, h2, ?_, ?_⟩
  · intro hx
    unfold vaporFraction at hx
    have hN : 1 / st.rho - 1 / st.rhoLiquid = 0 := by
      rcases div_eq_zero_iff.mp hx with h | h
      · exact h
      · exact absurd h (ne_of_gt hD)
    have heq : 1 / st.rho = 1 / st.rhoLiquid := by linarith
    rw [one_div, one_div] at heq
    exact inv_injective heq
  · intro hx
    unfold vaporFraction at hx
    have hN : 1 / st.rho - 1 / st.rhoLiquid = 1 / st.rhoVapor - 1 / st.rhoLiquid :=
      (div_eq_one_iff_eq (ne_of_gt hD)).mp hx
    have heq : 1 / st.rho = 1 / st.rhoVapor := by linarith
    rw [one_div, one_div] at heq
    exact inv_injective heq

theorem mkState_invariant (sub : EOSOracle) (T rho : ℚ) (st : TwoPhaseState)
    (Htp : ∀ a b : ℚ, sub.isTwoPhase a b = true →
      a < sub.Tcrit ∧ 0 < sub.rhoVap a ∧ sub.rhoVap a < sub.rhoLiq a ∧
        sub.rhoVap a ≤ b ∧ b ≤ sub.rhoLiq a)
    (h : mkState sub T rho = PhaseState.twoPhase st) :
    TwoPhaseInvariant sub st := by
  unfold mkState at h
  split_ifs at h with htp
  obtain ⟨h1, h2, h3, h4, h5⟩ := Htp T rho htp
  injection h with h
  subst h
  exact invariant_of_bounds sub _ rfl rfl h1 h2 h3 h4 h5

theorem twoVarSolve_ok_shape (sub : EOSOracle) (fo : ℚ → ℚ → ℚ) (yo : ℚ)
    (fi : ℚ → ℚ → ℚ) (yi tol : ℚ) (n : ℕ) (ps : PhaseState)
    (h : twoVarSolve sub fo yo fi yi tol n = Except.ok ps) :
    ∃ a b, ps = mkState sub a b := by
  unfold twoVarSolve at h
  split at h
  · exact Except.noConfusion h
  · split at h
    · injection h with h
      exact ⟨_, _, h.symm⟩
    · exact Except.noConfusion h

theorem oneVarRho_ok_shape (sub : EOSOracle) (f : ℚ → ℚ → ℚ)
    (target T tol : ℚ) (n : ℕ) (ps : PhaseState)
    (h : oneVarRho sub f target T tol n = Except.ok ps) :
    ∃ a b, ps = mkState sub a b := by
  unfold oneVarRho at h
  split at h
  · exact Except.noConfusion h
  · split at h
    · exact Except.noConfusion h
    · split at h
      · injection h with h
        exact ⟨_, _, h.symm⟩
      · exact Except.noConfusion h

theorem oneVarT_ok_shape (sub : EOSOracle) (f : ℚ → ℚ → ℚ)
    (target rho tol : ℚ) (n : ℕ) (ps : PhaseState)
    (h : oneVarT sub f target rho tol n = Except.ok ps) :
    ∃ a b, ps = mkState sub a b := by
  unfold oneVarT at h
  split at h
  · exact Except.noConfusion h
  · split at h
    · exact Except.noConfusion h
    · split at h
      · injection h with h
        exact ⟨_, _, h.symm⟩
      · exact Except.noConfusion h

theorem tsat_invariant (sub : EOSOracle) (t x : ℚ) (st : TwoPhaseState)
    (Hsat : ∀ a : ℚ, sub.Ttriple ≤ a → a < sub.Tcrit →
      0 < sub.rhoVap a ∧ sub.rhoVap a < sub.rhoLiq a)
    (h : setState_Tsat sub t x = Except.ok (PhaseState.twoPhase st)) :
    TwoPhaseInvariant sub st := by
  unfold setState_Tsat at h
  split_ifs at h with h1 h2
  push_neg at h1 h2
  obtain ⟨hv, hvl⟩ := Hsat t h1.1 h1.2
  injection h with h
  injection h with h
  subst h
  obtain ⟨hq, hb1, hb2⟩ :=
    tsat_state_props t (sub.rhoLiq t) (sub.rhoVap t) x hv hvl h2.1 h2.2
  exact invariant_of_bounds sub _ rfl rfl h1.2 hv hvl hb1 hb2

/-- C8: every two-phase state produced by any set-state or set-from-
saturation operation satisfies the data-model invariant, provided the
oracle's region test and saturation densities are sound. -/
theorem two_phase_cache_invariant (sub : EOSOracle) (op : SetStateOp) (n : ℕ)
    (st : TwoPhaseState)
    (Htp : ∀ a b : ℚ, sub.isTwoPhase a b = true →
      a < sub.Tcrit ∧ 0 < sub.rhoVap a ∧ sub.rhoVap a < sub.rhoLiq a ∧
        sub.rhoVap a ≤ b ∧ b ≤ sub.rhoLiq a)
    (Hsat : ∀ a : ℚ, sub.Ttriple ≤ a → a < sub.Tcrit →
      0 < sub.rhoVap a ∧ sub.rhoVap a < sub.rhoLiq a)
    (hok : runSetState sub op n = Except.ok (PhaseState.twoPhase st)) :
    TwoPhaseInvariant sub st := by
  cases op with
  | HP h p tol =>
      replace hok : twoVarSolve sub sub.enthalpy h sub.pressure p tol n =
        Except.ok (PhaseState.twoPhase st) := hok
      obtain ⟨a, b, hab⟩ := twoVarSolve_ok_shape sub _ _ _ _ _ _ _ hok
      exact mkState_invariant sub a b st Htp hab.symm
  | UV u v tol =>
      replace hok : setState_UV sub u v tol n = Except.ok (PhaseState.twoPhase st) := hok
      unfold setState_UV at hok
      split_ifs at hok with hv
      obtain ⟨a, b, hab⟩ := oneVarT_ok_shape sub _ _ _ _ _ _ hok
      exact mkState_invariant sub a b st Htp hab.symm
  | SV s v tol =>
      replace hok : setState_SV sub s v tol n = Except.ok (PhaseState.twoPhase st) := hok
      unfold setState_SV at hok
      split_ifs at hok with hv
      obtain ⟨a, b, hab⟩ := oneVarT_ok_shape sub _ _ _ _ _ _ hok
      exact mkState_invariant sub a b st Htp hab.symm
  | SP s p tol =>
      replace hok : twoVarSolve sub sub.entropy s sub.pressure p tol n =
        Except.ok (PhaseState.twoPhase st) := hok
      obtain ⟨a, b, hab⟩ := twoVarSolve_ok_shape sub _ _ _ _ _ _ _ hok
      exact mkState_invariant sub a b st Htp hab.symm
  | ST s t tol =>
      replace hok : oneVarRho sub sub.entropy s t tol n =
        Except.ok (PhaseState.twoPhase st) := hok
      obtain ⟨a, b, hab⟩ := oneVarRho_ok_shape sub _ _ _ _ _ _ hok
      exact mkState_invariant sub a b st Htp hab.symm
  | TV t v tol =>
      replace hok : setState_TV sub t v tol n = Except.ok (PhaseState.twoPhase st) := hok
      unfold setState_TV at hok
      split_ifs at hok with hv
      injection hok with hok
      exact mkState_invariant sub t (1 / v) st Htp hok
  | PV p v tol =>
      replace hok : setState_PV sub p v tol n = Except.ok (PhaseState.twoPhase st) := hok
      unfold setState_PV at hok
      split_ifs at hok with hv
      obtain ⟨a, b, hab⟩ := oneVarT_ok_shape sub _ _ _ _ _ _ hok
      exact mkState_invariant sub a b st Htp hab.symm
  | UP u p tol =>
      replace hok : twoVarSolve sub sub.energy u sub.pressure p tol n =
        Except.ok (PhaseState.twoPhase st) := hok
      obtain ⟨a, b, hab⟩ := twoVarSolve_ok_shape sub _ _ _ _ _ _ _ hok
      exact mkState_invariant sub a b st Htp hab.symm
  | VH v h tol =>
      replace hok : setState_VH sub v h tol n = Except.ok (PhaseState.twoPhase st) := hok
      unfold setState_VH at hok
      split_ifs at hok with hv
      obtain ⟨a, b, hab⟩ := oneVarT_ok_shape sub _ _ _ _ _ _ hok
      exact mkState_invariant sub a b st Htp hab.symm
  | TH t h tol =>
      replace hok : oneVarRho sub sub.enthalpy h t tol n =
        Except.ok (PhaseState.twoPhase st) := hok
      obtain ⟨a, b, hab⟩ := oneVarRho_ok_shape sub _ _ _ _ _ _ hok
      exact mkState_invariant sub a b st Htp hab.symm
  | SH s h tol =>
      replace hok : twoVarSolve sub sub.entropy s sub.enthalpy h tol n =
        Except.ok (PhaseState.twoPhase st) := hok
      obtain ⟨a, b, hab⟩ := twoVarSolve_ok_shape sub _ _ _ _ _ _ _ hok
      exact mkState_invariant sub a b st Htp hab.symm
  | Tsat t x =>
      replace hok : setState_Tsat sub t x = Except.ok (PhaseState.twoPhase st) := hok
      exact tsat_invariant sub t x st Hsat hok
  | Psat p x =>
      replace hok : setState_Psat sub p x n = Except.ok (PhaseState.twoPhase st) := hok
      unfold setState_Psat at hok
      split at hok
      · exact Except.noConfusion hok
      · exact tsat_invariant sub _ x st Hsat hok

/-- Witness for C8: an explicit saturation construction over the test
substance produces a two-phase state satisfying the invariant. -/
theorem two_phase_cache_invariant_witness :
    runSetState testSub (SetStateOp.Tsat 2 (1 / 2)) 5 =
        Except.ok (PhaseState.twoPhase ⟨2, 3, 1, 3 / 2⟩) ∧
      TwoPhaseInvariant testSub ⟨2, 3, 1, 3 / 2⟩ :=
  ⟨by unfold runSetState setState_Tsat; norm_num [testSub],
    two_phase_cache_invariant testSub (SetStateOp.Tsat 2 (1 / 2)) 5 ⟨2, 3, 1, 3 / 2⟩
      (fun a b hab => Bool.noConfusion hab)
      (fun a _ _ => ⟨by norm_num [testSub], by norm_num [testSub]⟩)
      (by unfold runSetState setState_Tsat; norm_num [testSub])⟩

/-- C5: on the open saturation range the saturation pressure is strictly
increasing in T (given the monotone saturation relation the navigator's
root search relies on), and `satTemperature` inverts it: resolving the
saturation temperature of `satP T` returns T within the tolerance reached
by the iteration budget. -/
theorem sat_pressure_mono_inverse (sub : EOSOracle) (n : ℕ) (tol : ℚ)
    (Hmono : ∀ a b : ℚ, sub.Ttriple ≤ a → a < b → b ≤ sub.Tcrit →
      sub.satP a < sub.satP b)
    (HPc : sub.satP sub.Tcrit ≤ sub.Pcrit)
    (htol : (sub.Tcrit - sub.Ttriple) / 2 ^ n ≤ tol) :
    (∀ T1 T2 : ℚ, sub.Ttriple < T1 → T1 < T2 → T2 < sub.Tcrit →
      ∃ P1 P2, satPressure sub T1 = Except.ok P1 ∧
        satPressure sub T2 = Except.ok P2 ∧ P1 < P2) ∧
    (∀ T : ℚ, sub.Ttriple < T → T < sub.Tcrit →
      ∃ T2, satTemperature sub (sub.satP T) n = Except.ok T2 ∧ |T2 - T| ≤ tol) := by
  constructor
  · intro T1 T2 h1 h2 h3
    refine ⟨sub.satP T1, sub.satP T2, ?_, ?_, ?_⟩
    · unfold satPressure
      rw [if_neg (by push_neg; exact ⟨le_of_lt h1, le_of_lt (lt_trans h2 h3)⟩)]
    · unfold satPressure
      rw [if_neg (by push_neg; exact ⟨le_of_lt (lt_trans h1 h2), le_of_lt h3⟩)]
    · exact Hmono T1 T2 (le_of_lt h1) h2 (le_of_lt h3)
  · intro T hT1 hT2
    have hdom : ¬ (sub.satP T < sub.satP sub.Ttriple ∨ sub.Pcrit < sub.satP T) := by
      push_neg
      constructor
      · exact le_of_lt (Hmono sub.Ttriple T (le_refl _) hT1 (le_of_lt hT2))
      · exact le_trans (le_of_lt (Hmono T sub.Tcrit (le_of_lt hT1) hT2 (le_refl _))) HPc
    refine ⟨bisectMid (fun t => sub.satP t - sub.satP T) n sub.Ttriple sub.Tcrit,
      ?_, ?_⟩
    · unfold satTemperature
      rw [if_neg hdom]
    · have hTtc : sub.Ttriple ≤ sub.Tcrit := le_of_lt (lt_trans hT1 hT2)
      have Hlow : ∀ m, sub.Ttriple ≤ m → m ≤ sub.Tcrit →
          sub.satP m - sub.satP T < 0 → m ≤ T + 0 := by
        intro m hm1 hm2 hfm
        by_contra hc
        push_neg at hc
        have := Hmono T m (le_of_lt hT1) (by linarith) hm2
        linarith
      have Hhigh : ∀ m, sub.Ttriple ≤ m → m ≤ sub.Tcrit →
          0 ≤ sub.satP m - sub.satP T → T - 0 ≤ m := by
        intro m hm1 hm2 hfm
        by_contra hc
        push_neg at hc
        have := Hmono m T hm1 (by linarith) (le_of_lt hT2)
        linarith
      have hclose := bisectMid_close (fun t => sub.satP t - sub.satP T)
        sub.Ttriple sub.Tcrit T 0 n hTtc (by linarith) (by linarith) Hlow Hhigh
      calc |bisectMid (fun t => sub.satP t - sub.satP T) n sub.Ttriple sub.Tcrit - T|
          ≤ 0 + (sub.Tcrit - sub.Ttriple) / 2 ^ n := hclose
        _ ≤ tol := by linarith

/-- Witness for C5: the test substance with identity saturation relation:
the inverse query at the saturation pressure of T = 2 lands within 1/2. -/
theorem sat_pressure_mono_inverse_witness :
    ((1 : ℚ) < 2 ∧ (2 : ℚ) < 10) ∧
      (∃ T2, satTemperature testSub (testSub.satP 2) 5 = Except.ok T2 ∧
        |T2 - 2| ≤ 1 / 2) := by
  have h := sat_pressure_mono_inverse testSub 5 (1 / 2)
    (fun a b _ hab _ => hab)
    (by norm_num [testSub])
    (by norm_num [testSub])
  exact ⟨⟨by norm_num, by norm_num⟩,
    h.2 2 (by norm_num [testSub]) (by norm_num [testSub])⟩

theorem solve1D_no_sign_change (f : ℚ → ℚ) (lo hi : ℚ) (n : ℕ)
    (h : (0 < f lo ∧ 0 < f hi) ∨ (f lo < 0 ∧ f hi < 0)) :
    solve1D f lo hi n = Except.error Err.DomainError := by
  unfold solve1D
  rcases h with ⟨h1, h2⟩ | ⟨h1, h2⟩
  · rw [if_neg (fun hc => absurd hc.1 (not_le.mpr h1)),
      if_neg (fun hc => absurd hc.1 (not_le.mpr h2))]
  · rw [if_neg (fun hc => absurd hc.2 (not_le.mpr h2)),
      if_neg (fun hc => absurd hc.2 (not_le.mpr h1))]

/-- C6: every set-state call that performs a bracketed search and whose
bracket contains no sign change (the residual is positive at both ends, the
target below the achievable range, or negative at both ends, the target
above it) fails with `DomainError` rather than extrapolating beyond the
bracket, and the prior cached state is left unchanged. -/
theorem search_no_sign_change_domain_error (ph : Phase) (op : SetStateOp)
    (n : ℕ) (f : ℚ → ℚ) (lo hi : ℚ)
    (hres : searchResidual ph.sub op n = some (f, lo, hi))
    (hnsc : (0 < f lo ∧ 0 < f hi) ∨ (f lo < 0 ∧ f hi < 0)) :
    runSetState ph.sub op n = Except.error Err.DomainError ∧
      applySetState ph op n = (ph, some Err.DomainError) := by
  have hmain : runSetState ph.sub op n = Except.error Err.DomainError := by
    cases op with
    | HP h p tol =>
        simp only [searchResidual, Option.some.injEq, Prod.mk.injEq] at hres
        obtain ⟨rfl, rfl, rfl⟩ := hres
        show twoVarSolve ph.sub ph.sub.enthalpy h ph.sub.pressure p tol n = _
        unfold twoVarSolve
        rw [solve1D_no_sign_change _ _ _ n hnsc]
    | UV u v tol =>
        simp only [searchResidual, Option.some.injEq, Prod.mk.injEq] at hres
        obtain ⟨rfl, rfl, rfl⟩ := hres
        show setState_UV ph.sub u v tol n = _
        unfold setState_UV oneVarT
        have hsolve := solve1D_no_sign_change
          (fun T => ph.sub.energy T (1 / v) - u) ph.sub.Tmin ph.sub.Tmax n hnsc
        by_cases hv : v ≤ 0
        · rw [if_pos hv]
        · rw [if_neg hv]
          by_cases hr : 1 / v < ph.sub.rhoMin ∨ ph.sub.rhoMax < 1 / v
          · rw [if_pos hr]
          · rw [if_neg hr, hsolve]
    | SV s v tol =>
        simp only [searchResidual, Option.some.injEq, Prod.mk.injEq] at hres
        obtain ⟨rfl, rfl, rfl⟩ := hres
        show setState_SV ph.sub s v tol n = _
        unfold setState_SV oneVarT
        have hsolve := solve1D_no_sign_change
          (fun T => ph.sub.entropy T (1 / v) - s) ph.sub.Tmin ph.sub.Tmax n hnsc
        by_cases hv : v ≤ 0
        · rw [if_pos hv]
        · rw [if_neg hv]
          by_cases hr : 1 / v < ph.sub.rhoMin ∨ ph.sub.rhoMax < 1 / v
          · rw [if_pos hr]
          · rw [if_neg hr, hsolve]
    | SP s p tol =>
        simp only [searchResidual, Option.some.injEq, Prod.mk.injEq] at hres
        obtain ⟨rfl, rfl, rfl⟩ := hres
        show twoVarSolve ph.sub ph.sub.entropy s ph.sub.pressure p tol n = _
        unfold twoVarSolve
        rw [solve1D_no_sign_change _ _ _ n hnsc]
    | ST s t tol =>
        simp only [searchResidual, Option.some.injEq, Prod.mk.injEq] at hres
        obtain ⟨rfl, rfl, rfl⟩ := hres
        show oneVarRho ph.sub ph.sub.entropy s t tol n = _
        unfold oneVarRho
        have hsolve := solve1D_no_sign_change
          (fun rho => ph.sub.entropy t rho - s) ph.sub.rhoMin ph.sub.rhoMax n hnsc
        by_cases ht : t < ph.sub.Tmin ∨ ph.sub.Tmax < t
        · rw [if_pos ht]
        · rw [if_neg ht, hsolve]
    | TV t v tol => exact Option.noConfusion hres
    | PV p v tol =>
        simp only [searchResidual, Option.some.injEq, Prod.mk.injEq] at hres
        obtain ⟨rfl, rfl, rfl⟩ := hres
        show setState_PV ph.sub p v tol n = _
        unfold setState_PV oneVarT
        have hsolve := solve1D_no_sign_change
          (fun T => ph.sub.pressure T (1 / v) - p) ph.sub.Tmin ph.sub.Tmax n hnsc
        by_cases hv : v ≤ 0
        · rw [if_pos hv]
        · rw [if_neg hv]
          by_cases hr : 1 / v < ph.sub.rhoMin ∨ ph.sub.rhoMax < 1 / v
          · rw [if_pos hr]
          · rw [if_neg hr, hsolve]
    | UP u p tol =>
        simp only [searchResidual, Option.some.injEq, Prod.mk.injEq] at hres
        obtain ⟨rfl, rfl, rfl⟩ := hres
        show twoVarSolve ph.sub ph.sub.energy u ph.sub.pressure p tol n = _
        unfold twoVarSolve
        rw [solve1D_no_sign_change _ _ _ n hnsc]
    | VH v h tol =>
        simp only [searchResidual, Option.some.injEq, Prod.mk.injEq] at hres
        obtain ⟨rfl, rfl, rfl⟩ := hres
        show setState_VH ph.sub v h tol n = _
        unfold setState_VH oneVarT
        have hsolve := solve1D_no_sign_change
          (fun T => ph.sub.enthalpy T (1 / v) - h) ph.sub.Tmin ph.sub.Tmax n hnsc
        by_cases hv : v ≤ 0
        · rw [if_pos hv]
        · rw [if_neg hv]
          by_cases hr : 1 / v < ph.sub.rhoMin ∨ ph.sub.rhoMax < 1 / v
          · rw [if_pos hr]
          · rw [if_neg hr, hsolve]
    | TH t h tol =>
        simp only [searchResidual, Option.some.injEq, Prod.mk.injEq] at hres
        obtain ⟨rfl, rfl, rfl⟩ := hres
        show oneVarRho ph.sub ph.sub.enthalpy h t tol n = _
        unfold oneVarRho
        have hsolve := solve1D_no_sign_change
          (fun rho => ph.sub.enthalpy t rho - h) ph.sub.rhoMin ph.sub.rhoMax n hnsc
        by_cases ht : t < ph.sub.Tmin ∨ ph.sub.Tmax < t
        · rw [if_pos ht]
        · rw [if_neg ht, hsolve]
    | SH s h tol =>
        simp only [searchResidual, Option.some.injEq, Prod.mk.injEq] at hres
        obtain ⟨rfl, rfl, rfl⟩ := hres
        show twoVarSolve ph.sub ph.sub.entropy s ph.sub.enthalpy h tol n = _
        unfold twoVarSolve
        rw [solve1D_no_sign_change _ _ _ n hnsc]
    | Tsat t x => exact Option.noConfusion hres
    | Psat p x => exact Option.noConfusion hres
  refine ⟨hmain, ?_⟩
  simp only [applySetState, hmain]

/-- Witness for C6: a `setState_SP` call on the test substance with entropy
target 0, below the entropy achievable at both temperature-bracket ends, is
rejected with a domain error and the cache is untouched. -/
theorem search_no_sign_change_domain_error_witness :
    searchResidual testPhase.sub (SetStateOp.SP 0 2 1) 0 =
        some (fun T => testPhase.sub.entropy T
            (innerRho testPhase.sub testPhase.sub.pressure 2 0 T) - 0,
          testPhase.sub.Tmin, testPhase.sub.Tmax) ∧
      runSetState testPhase.sub (SetStateOp.SP 0 2 1) 0 =
          Except.error Err.DomainError ∧
        applySetState testPhase (SetStateOp.SP 0 2 1) 0 =
          (testPhase, some Err.DomainError) := by
  have hres : searchResidual testPhase.sub (SetStateOp.SP 0 2 1) 0 =
      some (fun T => testPhase.sub.entropy T
          (innerRho testPhase.sub testPhase.sub.pressure 2 0 T) - 0,
        testPhase.sub.Tmin, testPhase.sub.Tmax) := rfl
  have hnsc : (0 < testPhase.sub.entropy testPhase.sub.Tmin
        (innerRho testPhase.sub testPhase.sub.pressure 2 0 testPhase.sub.Tmin) - 0 ∧
      0 < testPhase.sub.entropy testPhase.sub.Tmax
        (innerRho testPhase.sub testPhase.sub.pressure 2 0 testPhase.sub.Tmax) - 0) ∨
      (testPhase.sub.entropy testPhase.sub.Tmin
          (innerRho testPhase.sub testPhase.sub.pressure 2 0 testPhase.sub.Tmin) - 0 < 0 ∧
        testPhase.sub.entropy testPhase.sub.Tmax
          (innerRho testPhase.sub testPhase.sub.pressure 2 0 testPhase.sub.Tmax) - 0 < 0) :=
    Or.inl ⟨by norm_num [innerRho, bisectMid, bisect, testPhase, testSub],
      by norm_num [innerRho, bisectMid, bisect, testPhase, testSub]⟩
  obtain ⟨h1, h2⟩ := search_no_sign_change_domain_error testPhase
    (SetStateOp.SP 0 2 1) 0
    (fun T => testPhase.sub.entropy T
      (innerRho testPhase.sub testPhase.sub.pressure 2 0 T) - 0)
    testPhase.sub.Tmin testPhase.sub.Tmax hres hnsc
  exact ⟨hres, h1, h2⟩

theorem bisectMid_mem (f : ℚ → ℚ) (n : ℕ) (lo hi : ℚ) (h : lo ≤ hi) :
    lo ≤ bisectMid f n lo hi ∧ bisectMid f n lo hi ≤ hi := by
  obtain ⟨a, b, c⟩ := bisect_bracket f n lo hi h
  unfold bisectMid
  constructor <;> linarith

theorem innerRho_close (sub : EOSOracle) (f : ℚ → ℚ → ℚ) (target : ℚ) (n : ℕ)
    (T r brho : ℚ)
    (hr1 : sub.rhoMin ≤ r) (hr2 : r ≤ sub.rhoMax) (hroot : f T r = target)
    (hmono : ∀ r1 r2 : ℚ, sub.rhoMin ≤ r1 → r1 < r2 → r2 ≤ sub.rhoMax →
      f T r1 < f T r2)
    (hb : (sub.rhoMax - sub.rhoMin) / 2 ^ n ≤ brho) :
    |innerRho sub f target n T - r| ≤ brho := by
  have h1 : sub.rhoMin ≤ sub.rhoMax := le_trans hr1 hr2
  have Hlow : ∀ m, sub.rhoMin ≤ m → m ≤ sub.rhoMax →
      f T m - target < 0 → m ≤ r + 0 := by
    intro m hm1 hm2 hfm
    by_contra hc
    push_neg at hc
    have := hmono r m hr1 (by linarith) hm2
    rw [hroot] at this
    linarith
  have Hhigh : ∀ m, sub.rhoMin ≤ m → m ≤ sub.rhoMax →
      0 ≤ f T m - target → r - 0 ≤ m := by
    intro m hm1 hm2 hfm
    by_contra hc
    push_neg at hc
    have := hmono m r hm1 (by linarith) hr2
    rw [hroot] at this
    linarith
  have hclose := bisectMid_close (fun rho => f T rho - target) sub.rhoMin sub.rhoMax
    r 0 n h1 (by linarith) (by linarith) Hlow Hhigh
  unfold innerRho
  calc |bisectMid (fun rho => f T rho - target) n sub.rhoMin sub.rhoMax - r|
      ≤ 0 + (sub.rhoMax - sub.rhoMin) / 2 ^ n := hclose
    _ ≤ brho := by linarith

theorem twoVarSolve_converged (sub : EOSOracle) (fo : ℚ → ℚ → ℚ) (yo : ℚ)
    (fi : ℚ → ℚ → ℚ) (yi tol : ℚ) (n : ℕ) (Tm rm : ℚ)
    (hTm : Tm = bisectMid (fun T => fo T (innerRho sub fi yi n T) - yo) n
      sub.Tmin sub.Tmax)
    (hrm : rm = innerRho sub fi yi n Tm)
    (h1 : fo sub.Tmin (innerRho sub fi yi n sub.Tmin) - yo ≤ 0)
    (h2 : 0 ≤ fo sub.Tmax (innerRho sub fi yi n sub.Tmax) - yo)
    (hc1 : |fo Tm rm - yo| ≤ tol * |yo|)
    (hc2 : |fi Tm rm - yi| ≤ tol * |yi|) :
    twoVarSolve sub fo yo fi yi tol n = Except.ok (mkState sub Tm rm) := by
  subst hrm
  subst hTm
  simp only [twoVarSolve, solve1D]
  rw [if_pos ⟨h1, h2⟩]
  dsimp only
  rw [if_pos ⟨hc1, hc2⟩]

set_option maxHeartbeats 2000000 in
/-- C1: for a valid single-phase state (Tstar, rhostar), resolving from the
targets u = energy(Tstar, rhostar) and p = pressure(Tstar, rhostar) through
`setState_UP` succeeds and reproduces temperature and density within the
requested relative tolerance, provided the substance is well behaved on its
valid range (pressure strictly increasing in density with an exact isobar
`rhoAt` through the state, the energy along that isobar strictly increasing
in temperature with modulus cG and Lipschitz bound LG, energy and pressure
Lipschitz in density, the isobar Lipschitz in temperature) and the
iteration budget n is large enough for the bracket-halving bounds bT and
brho to meet the tolerance. -/
theorem up_roundtrip (sub : EOSOracle) (u p tol Tstar rhostar : ℚ)
    (rhoAt : ℚ → ℚ) (cG LG LErho Lp Lrho bT brho : ℚ) (n : ℕ)
    (hT1 : sub.Tmin ≤ Tstar) (hT2 : Tstar ≤ sub.Tmax)
    (hrs1 : sub.rhoMin ≤ rhostar) (hrs2 : rhostar ≤ sub.rhoMax)
    (hu : sub.energy Tstar rhostar = u) (hp : sub.pressure Tstar rhostar = p)
    (hiso : ∀ T : ℚ, sub.Tmin ≤ T → T ≤ sub.Tmax →
      sub.rhoMin ≤ rhoAt T ∧ rhoAt T ≤ sub.rhoMax ∧ sub.pressure T (rhoAt T) = p)
    (hpmono : ∀ T r1 r2 : ℚ, sub.Tmin ≤ T → T ≤ sub.Tmax →
      sub.rhoMin ≤ r1 → r1 < r2 → r2 ≤ sub.rhoMax →
      sub.pressure T r1 < sub.pressure T r2)
    (hElip : ∀ T r1 r2 : ℚ, sub.Tmin ≤ T → T ≤ sub.Tmax →
      sub.rhoMin ≤ r1 → r1 ≤ sub.rhoMax → sub.rhoMin ≤ r2 → r2 ≤ sub.rhoMax →
      |sub.energy T r1 - sub.energy T r2| ≤ LErho * |r1 - r2|)
    (hplip : ∀ T r1 r2 : ℚ, sub.Tmin ≤ T → T ≤ sub.Tmax →
      sub.rhoMin ≤ r1 → r1 ≤ sub.rhoMax → sub.rhoMin ≤ r2 → r2 ≤ sub.rhoMax →
      |sub.pressure T r1 - sub.pressure T r2| ≤ Lp * |r1 - r2|)
    (hGmod : ∀ a b : ℚ, sub.Tmin ≤ a → a ≤ b → b ≤ sub.Tmax →
      cG * (b - a) ≤ sub.energy b (rhoAt b) - sub.energy a (rhoAt a))
    (hGlip : ∀ a b : ℚ, sub.Tmin ≤ a → a ≤ b → b ≤ sub.Tmax →
      sub.energy b (rhoAt b) - sub.energy a (rhoAt a) ≤ LG * (b - a))
    (hrholip : ∀ a b : ℚ, sub.Tmin ≤ a → a ≤ b → b ≤ sub.Tmax →
      |rhoAt a - rhoAt b| ≤ Lrho * (b - a))
    (hcG : 0 < cG) (hLG : 0 ≤ LG) (hLp : 0 ≤ Lp) (hLrho : 0 ≤ Lrho)
    (hLE : 0 ≤ LErho)
    (hbT : (sub.Tmax - sub.Tmin) / 2 ^ n ≤ bT)
    (hbrho : (sub.rhoMax - sub.rhoMin) / 2 ^ n ≤ brho)
    (hmlo : sub.energy sub.Tmin (rhoAt sub.Tmin) ≤ u - LErho * brho)
    (hmhi : u + LErho * brho ≤ sub.energy sub.Tmax (rhoAt sub.Tmax))
    (hacc1 : LErho * brho / cG + bT ≤ tol * Tstar)
    (hacc2 : brho + Lrho * (LErho * brho / cG + bT) ≤ tol * rhostar)
    (hacc3 : LErho * brho + LG * (LErho * brho / cG + bT) ≤ tol * |u|)
    (hacc4 : Lp * brho ≤ tol * |p|)
    (hsingle : ∀ a b : ℚ, sub.isTwoPhase a b = false) :
    ∃ T2 rho2 : ℚ,
      setState_UP sub u p tol n = Except.ok (PhaseState.single ⟨T2, rho2⟩) ∧
        |T2 - Tstar| ≤ tol * Tstar ∧ |rho2 - rhostar| ≤ tol * rhostar := by
  have hTT : sub.Tmin ≤ sub.Tmax := le_trans hT1 hT2
  have hRR : sub.rhoMin ≤ sub.rhoMax := le_trans hrs1 hrs2
  have hbrho0 : 0 ≤ brho :=
    le_trans (div_nonneg (by linarith) (by positivity)) hbrho
  have hbT0 : 0 ≤ bT :=
    le_trans (div_nonneg (by linarith) (by positivity)) hbT
  have hepsnn : 0 ≤ LErho * brho / cG :=
    div_nonneg (mul_nonneg hLE hbrho0) (le_of_lt hcG)
  have hdT0 : 0 ≤ LErho * brho / cG + bT := by linarith
  have hinner : ∀ T : ℚ, sub.Tmin ≤ T → T ≤ sub.Tmax →
      |innerRho sub sub.pressure p n T - rhoAt T| ≤ brho := by
    intro T hTa hTb
    obtain ⟨ha, hb, hc⟩ := hiso T hTa hTb
    exact innerRho_close sub sub.pressure p n T (rhoAt T) brho ha hb hc
      (fun r1 r2 h1 h2 h3 => hpmono T r1 r2 hTa hTb h1 h2 h3) hbrho
  have hinmem : ∀ T : ℚ,
      sub.rhoMin ≤ innerRho sub sub.pressure p n T ∧
        innerRho sub sub.pressure p n T ≤ sub.rhoMax := by
    intro T
    exact bisectMid_mem (fun rho => sub.pressure T rho - p) n
      sub.rhoMin sub.rhoMax hRR
  have hstar : rhoAt Tstar = rhostar := by
    obtain ⟨ha, hb, hc⟩ := hiso Tstar hT1 hT2
    rcases lt_trichotomy (rhoAt Tstar) rhostar with h | h | h
    · have := hpmono Tstar (rhoAt Tstar) rhostar hT1 hT2 ha h hrs2
      rw [hc, hp] at this
      exact absurd this (lt_irrefl _)
    · exact h
    · have := hpmono Tstar rhostar (rhoAt Tstar) hT1 hT2 hrs1 h hb
      rw [hc, hp] at this
      exact absurd this (lt_irrefl _)
  have hgG : ∀ T : ℚ, sub.Tmin ≤ T → T ≤ sub.Tmax →
      |sub.energy T (innerRho sub sub.pressure p n T) - sub.energy T (rhoAt T)|
        ≤ LErho * brho := by
    intro T hTa hTb
    obtain ⟨ha, hb, _⟩ := hiso T hTa hTb
    have h6 := hElip T (innerRho sub sub.pressure p n T) (rhoAt T) hTa hTb
      (hinmem T).1 (hinmem T).2 ha hb
    calc |sub.energy T (innerRho sub sub.pressure p n T) - sub.energy T (rhoAt T)|
        ≤ LErho * |innerRho sub sub.pressure p n T - rhoAt T| := h6
      _ ≤ LErho * brho := mul_le_mul_of_nonneg_left (hinner T hTa hTb) hLE
  have hsign1 : sub.energy sub.Tmin (innerRho sub sub.pressure p n sub.Tmin) - u ≤ 0 := by
    have habs := abs_le.mp (hgG sub.Tmin (le_refl _) hTT)
    linarith [habs.1, habs.2]
  have hsign2 : 0 ≤ sub.energy sub.Tmax (innerRho sub sub.pressure p n sub.Tmax) - u := by
    have habs := abs_le.mp (hgG sub.Tmax hTT (le_refl _))
    linarith [habs.1, habs.2]
  have Hlow : ∀ m : ℚ, sub.Tmin ≤ m → m ≤ sub.Tmax →
      sub.energy m (innerRho sub sub.pressure p n m) - u < 0 →
      m ≤ Tstar + LErho * brho / cG := by
    intro m hm1 hm2 hfm
    rcases le_or_lt m Tstar with h | h
    · linarith
    · have hmod := hGmod Tstar m hT1 (le_of_lt h) hm2
      rw [hstar, hu] at hmod
      have habs := abs_le.mp (hgG m hm1 hm2)
      have hcomb : (m - Tstar) * cG ≤ LErho * brho := by
        rw [mul_comm (m - Tstar) cG]
        linarith [habs.1]
      have hq : m - Tstar ≤ LErho * brho / cG := (le_div_iff₀ hcG).mpr hcomb
      linarith
  have Hhigh : ∀ m : ℚ, sub.Tmin ≤ m → m ≤ sub.Tmax →
      0 ≤ sub.energy m (innerRho sub sub.pressure p n m) - u →
      Tstar - LErho * brho / cG ≤ m := by
    intro m hm1 hm2 hfm
    rcases le_or_lt Tstar m with h | h
    · linarith
    · have hmod := hGmod m Tstar hm1 (le_of_lt h) hT2
      rw [hstar, hu] at hmod
      have habs := abs_le.mp (hgG m hm1 hm2)
      have hcomb : (Tstar - m) * cG ≤ LErho * brho := by
        rw [mul_comm (Tstar - m) cG]
        linarith [habs.2]
      have hq : Tstar - m ≤ LErho * brho / cG := (le_div_iff₀ hcG).mpr hcomb
      linarith
  set T2v := bisectMid
    (fun T => sub.energy T (innerRho sub sub.pressure p n T) - u) n
    sub.Tmin sub.Tmax with hT2def
  set rho2v := innerRho sub sub.pressure p n T2v with hrho2def
  have houter := bisectMid_close
    (fun T => sub.energy T (innerRho sub sub.pressure p n T) - u)
    sub.Tmin sub.Tmax Tstar (LErho * brho / cG) n hTT
    (by linarith) (by linarith) Hlow Hhigh
  rw [← hT2def] at houter
  have hTacc : |T2v - Tstar| ≤ LErho * brho / cG + bT := by linarith [houter]
  have hT2mem := bisectMid_mem
    (fun T => sub.energy T (innerRho sub sub.pressure p n T) - u) n
    sub.Tmin sub.Tmax hTT
  rw [← hT2def] at hT2mem
  have hrho2close : |rho2v - rhoAt T2v| ≤ brho := hinner T2v hT2mem.1 hT2mem.2
  have hrAtlip : |rhoAt T2v - rhostar| ≤ Lrho * (LErho * brho / cG + bT) := by
    rw [← hstar]
    have habsT := abs_le.mp hTacc
    rcases le_total T2v Tstar with h | h
    · calc |rhoAt T2v - rhoAt Tstar| ≤ Lrho * (Tstar - T2v) :=
          hrholip T2v Tstar hT2mem.1 h hT2
        _ ≤ Lrho * (LErho * brho / cG + bT) :=
          mul_le_mul_of_nonneg_left (by linarith [habsT.1]) hLrho
    · calc |rhoAt T2v - rhoAt Tstar| = |rhoAt Tstar - rhoAt T2v| := abs_sub_comm _ _
        _ ≤ Lrho * (T2v - Tstar) := hrholip Tstar T2v hT1 h hT2mem.2
        _ ≤ Lrho * (LErho * brho / cG + bT) :=
          mul_le_mul_of_nonneg_left (by linarith [habsT.2]) hLrho
  have hrhoacc : |rho2v - rhostar| ≤ tol * rhostar := by
    have htri := abs_sub_le rho2v (rhoAt T2v) rhostar
    linarith [hrho2close, hrAtlip, hacc2]
  have hTaccfin : |T2v - Tstar| ≤ tol * Tstar := le_trans hTacc hacc1
  have hGT2 : |sub.energy T2v (rhoAt T2v) - u| ≤ LG * (LErho * brho / cG + bT) := by
    have habsT := abs_le.mp hTacc
    rcases le_total T2v Tstar with h | h
    · have ha2 := hGlip T2v Tstar hT2mem.1 h hT2
      have hb2 := hGmod T2v Tstar hT2mem.1 h hT2
      rw [hstar, hu] at ha2 hb2
      rw [abs_le]
      constructor
      · have h1 : u - sub.energy T2v (rhoAt T2v) ≤ LG * (Tstar - T2v) := ha2
        have h2 : LG * (Tstar - T2v) ≤ LG * (LErho * brho / cG + bT) :=
          mul_le_mul_of_nonneg_left (by linarith [habsT.1]) hLG
        linarith
      · have hnn1 : 0 ≤ cG * (Tstar - T2v) :=
          mul_nonneg (le_of_lt hcG) (by linarith)
        have hnn2 : 0 ≤ LG * (LErho * brho / cG + bT) := mul_nonneg hLG hdT0
        linarith [hb2]
    · have ha2 := hGlip Tstar T2v hT1 h hT2mem.2
      have hb2 := hGmod Tstar T2v hT1 h hT2mem.2
      rw [hstar, hu] at ha2 hb2
      rw [abs_le]
      constructor
      · have hnn1 : 0 ≤ cG * (T2v - Tstar) :=
          mul_nonneg (le_of_lt hcG) (by linarith)
        have hnn2 : 0 ≤ LG * (LErho * brho / cG + bT) := mul_nonneg hLG hdT0
        linarith [hb2]
      · have h1 : sub.energy T2v (rhoAt T2v) - u ≤ LG * (T2v - Tstar) := ha2
        have h2 : LG * (T2v - Tstar) ≤ LG * (LErho * brho / cG + bT) :=
          mul_le_mul_of_nonneg_left (by linarith [habsT.2]) hLG
        linarith
  have hres_u : |sub.energy T2v rho2v - u| ≤ tol * |u| := by
    have htri := abs_sub_le (sub.energy T2v rho2v) (sub.energy T2v (rhoAt T2v)) u
    have h1 := hgG T2v hT2mem.1 hT2mem.2
    rw [← hrho2def] at h1
    linarith [hGT2, hacc3]
  have hres_p : |sub.pressure T2v rho2v - p| ≤ tol * |p| := by
    obtain ⟨ha, hb, hc⟩ := hiso T2v hT2mem.1 hT2mem.2
    have hm := hinmem T2v
    rw [← hrho2def] at hm
    have h9 := hplip T2v rho2v (rhoAt T2v) hT2mem.1 hT2mem.2 hm.1 hm.2 ha hb
    calc |sub.pressure T2v rho2v - p|
        = |sub.pressure T2v rho2v - sub.pressure T2v (rhoAt T2v)| := by rw [hc]
      _ ≤ Lp * |rho2v - rhoAt T2v| := h9
      _ ≤ Lp * brho := mul_le_mul_of_nonneg_left hrho2close hLp
      _ ≤ tol * |p| := hacc4
  have hrun := twoVarSolve_converged sub sub.energy u sub.pressure p tol n
    T2v rho2v hT2def hrho2def hsign1 hsign2 hres_u hres_p
  refine ⟨T2v, rho2v, ?_, hTaccfin, hrhoacc⟩
  show twoVarSolve sub sub.energy u sub.pressure p tol n =
    Except.ok (PhaseState.single ⟨T2v, rho2v⟩)
  rw [hrun]
  simp [mkState, hsingle]

/-- Witness for C1: the round trip from the state (T, rho) = (2, 2) of the
test substance at tolerance 1/4 with a 2-step iteration budget. -/
theorem up_roundtrip_witness :
    ((1 : ℚ) ≤ 2 ∧ (2 : ℚ) ≤ 3) ∧
      (∃ T2 rho2 : ℚ,
        setState_UP testSub 2 2 (1 / 4) 2 =
            Except.ok (PhaseState.single ⟨T2, rho2⟩) ∧
          |T2 - 2| ≤ 1 / 4 * 2 ∧ |rho2 - 2| ≤ 1 / 4 * 2) :=
  ⟨⟨by norm_num, by norm_num⟩,
    up_roundtrip testSub 2 2 (1 / 4) 2 2 (fun _ => 2) 1 1 0 1 0 (1 / 2) (1 / 2) 2
      (by norm_num [testSub]) (by norm_num [testSub]) (by norm_num [testSub])
      (by norm_num [testSub]) rfl rfl
      (fun T _ _ => ⟨by norm_num [testSub], by norm_num [testSub], rfl⟩)
      (fun T r1 r2 _ _ _ h _ => h)
      (fun T r1 r2 _ _ _ _ _ _ => by simp [testSub])
      (fun T r1 r2 _ _ _ _ _ _ => by simp [testSub])
      (fun a b _ _ _ => by simp [testSub])
      (fun a b _ _ _ => by simp [testSub])
      (fun a b _ _ _ => by simp [testSub])
      (by norm_num) (by norm_num) (by norm_num) (by norm_num) (by norm_num)
      (by norm_num [testSub]) (by norm_num [testSub]) (by norm_num [testSub])
      (by norm_num [testSub]) (by norm_num) (by norm_num)
      (by norm_num [abs_two]) (by norm_num [abs_two]) (fun a b => rfl)⟩

end PureFluid
